import Mathlib

/-!
# Verification of MonarchMoneyObfuscationTweak against its specification

This development shallowly embeds the repository's tooling code
(`scripts/live_smoke.mjs`, `scripts/refresh_route_doms.mjs`) and a
spec-derived model of the userscript masking core, and proves the stated
properties about them.

Strings are modelled as `List Char`; JavaScript regular-expression
character classes are modelled as decidable character predicates.
-/

namespace MTM

/-! ## JavaScript primitives used by the scripts -/

/-- The JavaScript `\s` character class (also the set trimmed by
`String.prototype.trim`): ASCII whitespace, NBSP, the Unicode space
separators, line/paragraph separators and the BOM. -/
def jsIsWs (c : Char) : Bool :=
  c.toNat = 0x20 || c.toNat = 0x09 || c.toNat = 0x0a || c.toNat = 0x0d ||
  c.toNat = 0x0b || c.toNat = 0x0c || c.toNat = 0xa0 || c.toNat = 0x1680 ||
  (0x2000 <= c.toNat && c.toNat <= 0x200a) || c.toNat = 0x2028 ||
  c.toNat = 0x2029 || c.toNat = 0x202f || c.toNat = 0x205f ||
  c.toNat = 0x3000 || c.toNat = 0xfeff

/-- Drop the leading JS-whitespace of a string (left half of `trim`). -/
def ltrim (l : List Char) : List Char := l.dropWhile jsIsWs

/-- Drop the trailing JS-whitespace of a string (right half of `trim`). -/
def rtrim (l : List Char) : List Char := (l.reverse.dropWhile jsIsWs).reverse

/-- JavaScript `String.prototype.trim`. -/
def jsTrim (l : List Char) : List Char := rtrim (ltrim l)

/-- Worker for `String.prototype.split(/\s+/)`: `inWs` records whether the
scanner is inside a whitespace run (so that a run contributes a single
separator), `acc` is the reversed current field. -/
def splitWsAux : Bool → List Char → List Char → List (List Char)
  | _, [], acc => [acc.reverse]
  | inWs, c :: rest, acc =>
    if jsIsWs c then
      if inWs then splitWsAux true rest acc
      else acc.reverse :: splitWsAux true rest []
    else splitWsAux false rest (c :: acc)

/-- JavaScript `s.split(/\s+/)`. -/
def splitWs (l : List Char) : List (List Char) := splitWsAux false l []

/-- `getAuthScheme` from `scripts/live_smoke.mjs`: returns `null` for a
missing or falsy header, trims it, and returns the first
whitespace-delimited token (or `null` when empty). -/
def getAuthScheme : Option (List Char) → Option (List Char)
  | none => none
  | some a =>
    if a = [] then none
    else if jsTrim a = [] then none
    else if (splitWs (jsTrim a)).headD [] = [] then none
    else some ((splitWs (jsTrim a)).headD [])

/-- The first whitespace-delimited token of a string: what remains of the
scheme once every leading whitespace is dropped, up to the next
whitespace. `none` when the string is all whitespace. -/
def firstTok (l : List Char) : Option (List Char) :=
  let t := ltrim l
  if t = [] then none else some (t.takeWhile (fun c => !jsIsWs c))

/-! ## Snapshot sanitizer (`scripts/refresh_route_doms.mjs`) -/

/-- The `[\d,.]` character class of `MONEY_RE`. -/
def isDigitCommaDot (c : Char) : Bool := c.isDigit || c = ',' || c = '.'

/-- Full match of the first `MONEY_RE` alternative `\$\s*[\d,.]+`. -/
def moneyAlt1 : List Char → Bool
  | [] => false
  | c :: r =>
    c = '$' && !(r.dropWhile jsIsWs).isEmpty && (r.dropWhile jsIsWs).all isDigitCommaDot

/-- Full match of the second `MONEY_RE` alternative `\(\$\s*[\d,.]+\)`. -/
def moneyAlt2 : List Char → Bool
  | [] => false
  | c :: r =>
    c = '(' &&
      (match r.getLast? with
       | some d => d = ')' && moneyAlt1 r.dropLast
       | none => false)

/-- Full match of the third `MONEY_RE` alternative `-\$\s*[\d,.]+`. -/
def moneyAlt3 : List Char → Bool
  | [] => false
  | c :: r => c = '-' && moneyAlt1 r

/-- A string the sanitizer's money pattern
`MONEY_RE = /\$\s*[\d,.]+|\(\$\s*[\d,.]+\)|-\$\s*[\d,.]+/g` can produce as a
match (a full match of one of its three alternatives). -/
def isMoneyMatch (l : List Char) : Bool := moneyAlt1 l || moneyAlt2 l || moneyAlt3 l

/-- `sanitizeMoneyMatch` from `scripts/refresh_route_doms.mjs`: trims the
match, classifies a `-$` prefix and a `($` prefix, and rebuilds the fixed
replacement `$1,234.56` with the classified presentation. -/
def sanitizeMoneyMatch (m : List Char) : List Char :=
  let t := jsTrim m
  let isNeg := ['-', '$'].isPrefixOf t
  let isParen := ['(', '$'].isPrefixOf t
  let masked := "$1,234.56".toList
  let masked := if isNeg then '-' :: masked else masked
  let masked := if isParen then '(' :: (masked ++ [')']) else masked
  masked

/-! ## Snapshot normalization (`normalizeHtml` and `UUID_RE`) -/

/-- Hexadecimal digit, case-insensitive (`[0-9a-f]` with the `i` flag). -/
def isHexDigit (c : Char) : Bool :=
  c.isDigit || ('a' ≤ c && c ≤ 'f') || ('A' ≤ c && c ≤ 'F')

/-- The JavaScript `\w` class `[A-Za-z0-9_]`, deciding `\b` boundaries. -/
def isWordChar (c : Char) : Bool :=
  ('a' ≤ c && c ≤ 'z') || ('A' ≤ c && c ≤ 'Z') || c.isDigit || c = '_'

/-- Shape of `UUID_RE` as a template: `x` stands for one hex digit,
`-` for a literal dash (8-4-4-4-12). -/
def uuidTemplate : List Char := "xxxxxxxx-xxxx-xxxx-xxxx-xxxxxxxxxxxx".toList

/-- One template slot against one character. -/
def slotMatches (t c : Char) : Bool := if t = '-' then c = '-' else isHexDigit c

/-- Whether `l` starts with a full match of the template. -/
def matchesTemplate : List Char → List Char → Bool
  | [], _ => true
  | _ :: _, [] => false
  | t :: ts, c :: cs => slotMatches t c && matchesTemplate ts cs

/-- The canonical replacement for a template: hex slots become `0`. -/
def zeroOf (tpl : List Char) : List Char :=
  tpl.map (fun t => if t = '-' then '-' else '0')

/-- The replacement string `00000000-0000-0000-0000-000000000000`. -/
def zeroUuid : List Char := zeroOf uuidTemplate

/-- Whether an `Option Char` (the character on one side of a position) is a
word character; `none` (string edge) is not. -/
def wordishOpt : Option Char → Bool
  | none => false
  | some c => isWordChar c

/-- `\b` before a UUID match: the first matched character is a word
character, so the boundary holds iff the previous character is absent or
not a word character. -/
def boundaryBeforeOk (prev : Option Char) : Bool := !wordishOpt prev

/-- `\b` after a UUID match: the last matched character is a word
character, so the boundary holds iff the next character is absent or not a
word character. -/
def boundaryAfterOk (l : List Char) : Bool :=
  match l.head? with
  | none => true
  | some c => !isWordChar c

/-- Global replacement of `UUID_RE` matches by `zeroUuid`, scanning left to
right over the original characters (as `String.prototype.replace` with a
`g` regex does); `prev` is the original character just before the scan
position, for the `\b` test. -/
def replaceUuids (prev : Option Char) (l : List Char) : List Char :=
  match l with
  | [] => []
  | c :: cs =>
    if matchesTemplate uuidTemplate (c :: cs) && boundaryBeforeOk prev &&
        boundaryAfterOk (cs.drop 35) then
      zeroUuid ++ replaceUuids (some '0') (cs.drop 35)
    else c :: replaceUuids (some c) cs
termination_by l.length
decreasing_by
  · simp [List.length_drop]; omega
  · simp

/-- `normalizeHtml` from `scripts/refresh_route_doms.mjs`: replace every
word-bounded UUID by the all-zero UUID. -/
def normalizeHtml (l : List Char) : List Char := replaceUuids none l

/-- How one output character of `normalizeHtml` relates to the input
character at the same position: unchanged, or a hex digit zeroed by a UUID
replacement. -/
def charSim (a b : Char) : Prop := b = a ∨ (isHexDigit a = true ∧ b = '0')

/-! ## Spec-modelled masking core

The userscript `MonarchMoneyObfuscate.user.js` is not part of the source
tree here; the following definitions model it from the specification
(§3–§4.8) and from the shapes its tests and smoke script drive
(`.mtm-amount` marker class, `data-original-text`, `MT_HideSensitiveInfo`,
`#mtm-obf-master`). -/

/-- Modelled from the spec: the Pattern Matcher's sign classification
(§4.1). -/
inductive MoneySign where
  | pos
  | neg
  | paren
deriving DecidableEq, Repr

/-- Modelled from the spec: digits with optional thousands separators —
either a plain run of digits, or groups of at most three digits separated
by commas with every group after the first exactly three digits. -/
def isIntPart (l : List Char) : Bool :=
  match l.splitOn ',' with
  | [] => false
  | [g] => !g.isEmpty && g.all Char.isDigit
  | g :: gs =>
    !g.isEmpty && g.length ≤ 3 && g.all Char.isDigit &&
    gs.all (fun h => h.length = 3 && h.all Char.isDigit)

/-- Modelled from the spec: the numeric body of an amount — an integer
part and exactly two decimal places after a period (§4.1). -/
def amountBody (l : List Char) : Bool :=
  match l.splitOn '.' with
  | [ip, dp] => isIntPart ip && dp.length = 2 && dp.all Char.isDigit
  | _ => false

/-- Modelled from the spec: the Pattern Matcher (§4.1), recognizing the
three currency shapes `$<amount>`, `-$<amount>` and `($<amount>)` and
classifying their sign; `none` for any other string. -/
def classifySign : List Char → Option MoneySign
  | '$' :: r => if amountBody r then some .pos else none
  | '-' :: '$' :: r => if amountBody r then some .neg else none
  | '(' :: '$' :: r =>
    match r.getLast? with
    | some ')' => if amountBody r.dropLast then some .paren else none
    | _ => none
  | _ => none

/-- Modelled from the spec: the Mask Renderer's fixed canonical template
per classified sign (§4.2) — `$*,***.**` with the sign presentation kept. -/
def maskTemplate : MoneySign → List Char
  | .pos => "$*,***.**".toList
  | .neg => "-$*,***.**".toList
  | .paren => "($*,***.**)".toList

/-- Modelled from the spec: the Mask Renderer applied to a text — the
canonical template for its classified sign, the text itself when it is not
currency-shaped. -/
def maskText (s : List Char) : List Char :=
  match classifySign s with
  | some g => maskTemplate g
  | none => s

/-- Whether a text qualifies for wrapping (the Pattern Matcher accepts it). -/
def hasMoney (s : List Char) : Bool := (classifySign s).isSome

/-- Attributes of a modelled DOM element. -/
structure ElemData where
  tag : List Char
  classes : List (List Char)
  idAttr : Option (List Char)
  dataOriginal : Option (List Char)
  revealed : Bool
deriving DecidableEq, Repr

mutual
/-- Modelled from the spec: the host document tree the core operates on. -/
inductive Dom where
  | text (s : List Char)
  | elem (info : ElemData) (children : DomList)
deriving DecidableEq, Repr
/-- Children lists of `Dom` elements. -/
inductive DomList where
  | nil
  | cons (hd : Dom) (tl : DomList)
deriving DecidableEq, Repr
end

/-- The stable CSS marker class of an Amount Unit (`.mtm-amount`). -/
def unitClass : List Char := "mtm-amount".toList

/-- Whether an element is marked as an Amount Unit. -/
def isUnitElem (e : ElemData) : Bool := unitClass ∈ e.classes

/-- Tag of vector-graphic subtrees the Scanner must skip. -/
def svgTag : List Char := "svg".toList

/-- Modelled from the spec: the Node Wrapper (§4.3) — a managed inline
element with the marker class, the original text as a recoverable
attribute, and initial displayed text per current global mode `m`. -/
def mkUnit (m : Bool) (s : List Char) : Dom :=
  .elem
    { tag := "span".toList, classes := [unitClass], idAttr := none,
      dataOriginal := some s, revealed := false }
    (.cons (.text (if m then maskText s else s)) .nil)

mutual
/-- Modelled from the spec: the Scanner (§4.4) — walk the tree, skip
already-wrapped units and vector-graphic subtrees, wrap qualifying text
via the Node Wrapper. -/
def scanDom (m : Bool) : Dom → Dom
  | .text s => if hasMoney s then mkUnit m s else .text s
  | .elem e ch =>
    if isUnitElem e || e.tag = svgTag then .elem e ch
    else .elem e (scanList m ch)
/-- The Scanner over a list of siblings. -/
def scanList (m : Bool) : DomList → DomList
  | .nil => .nil
  | .cons d ds => .cons (scanDom m d) (scanList m ds)
end

mutual
/-- Modelled from the spec: Applier step (d) (§4.6) — for every unit not
currently in Revealed mode, set the displayed text to `maskedText` when
the mode is ON, `originalText` when OFF. -/
def setDisplayDom (m : Bool) : Dom → Dom
  | .text s => .text s
  | .elem e ch =>
    if isUnitElem e then
      match e.dataOriginal, e.revealed with
      | some o, false => .elem e (.cons (.text (if m then maskText o else o)) .nil)
      | _, _ => .elem e ch
    else .elem e (setDisplayList m ch)
/-- Applier display pass over a list of siblings. -/
def setDisplayList (m : Bool) : DomList → DomList
  | .nil => .nil
  | .cons d ds => .cons (setDisplayDom m d) (setDisplayList m ds)
end

mutual
/-- The text content of a node (concatenation of its text descendants). -/
def textContentDom : Dom → List Char
  | .text s => s
  | .elem _ ch => textContentList ch
/-- Text content of a list of siblings. -/
def textContentList : DomList → List Char
  | .nil => []
  | .cons d ds => textContentDom d ++ textContentList ds
end

/-- Observable view of one Amount Unit: its recoverable original text, its
currently displayed text, and whether it is in hover/focus reveal. -/
structure UnitView where
  original : List Char
  displayed : List Char
  revealed : Bool
deriving DecidableEq, Repr

mutual
/-- The Amount Units of a document, in document order. -/
def unitsDom : Dom → List UnitView
  | .text _ => []
  | .elem e ch =>
    if isUnitElem e then
      match e.dataOriginal with
      | some o => [⟨o, textContentList ch, e.revealed⟩]
      | none => []
    else unitsList ch
/-- Units of a list of siblings. -/
def unitsList : DomList → List UnitView
  | .nil => []
  | .cons d ds => unitsDom d ++ unitsList ds
end

/-! ### State Store (§4.5) and route gating (§4.8) -/

/-- The durable per-origin preference key. -/
def prefKey : List Char := "MT_HideSensitiveInfo".toList

/-- Modelled from the spec: the per-origin durable key-value store
(`localStorage`), as an association list where the latest write shadows. -/
def Storage : Type := List (List Char × List Char)

/-- Read one key of the store. -/
def lookupKey (k : List Char) : Storage → Option (List Char)
  | [] => none
  | (k', v) :: rest => if k' = k then some v else lookupKey k rest

/-- Modelled from the spec: `State Store.get` — the preference is ON
exactly when the key holds the string `"1"`. -/
def getPref (st : Storage) : Bool := lookupKey prefKey st = some ("1".toList)

/-- Modelled from the spec: `State Store.set` — synchronously persist
`"1"` or `"0"` under the preference key. -/
def setPref (b : Bool) (st : Storage) : Storage :=
  (prefKey, if b then "1".toList else "0".toList) :: st

/-- The allow-list of supported route paths (§4.8). -/
def allowedRoutes : List (List Char) :=
  ["/dashboard", "/accounts", "/transactions", "/objectives", "/plan",
   "/investments"].map String.toList

/-- Modelled from the spec: Lifecycle Driver route-eligibility check. -/
def routeEligible (p : List Char) : Bool := p ∈ allowedRoutes

/-- Modelled from the spec: the `isActive()`-equivalent query — masking
preference ON and the current route eligible. -/
def isActive (st : Storage) (p : List Char) : Bool := getPref st && routeEligible p

/-- Modelled from the spec: the Applier `applyState` (§4.6) — on an
ineligible route do nothing at all; otherwise read the store, run the
Scanner, then reconcile every unit's displayed text with the mode. -/
def applyState (p : List Char) (st : Storage) (d : Dom) : Dom :=
  if routeEligible p then
    setDisplayDom (getPref st) (scanDom (getPref st) d)
  else d

/-- Whole-system state: document, durable store, current route. -/
structure SysState where
  dom : Dom
  storage : Storage
  route : List Char

/-- `applyState` lifted to the whole system: it reads but never writes the
store. -/
def applyStateS (s : SysState) : SysState :=
  { s with dom := applyState s.route s.storage s.dom }

/-- Modelled from the spec: the toggle control's click handler (§4.8) —
flip the preference, persist it synchronously, then reapply. -/
def toggleClick (s : SysState) : SysState :=
  applyStateS { s with storage := setPref (!getPref s.storage) s.storage }

/-! ### Toggle control injection (§4.8) -/

/-- The stable identifying marker of the injected control. -/
def controlId : List Char := "mtm-obf-master".toList

/-- Tag of the host navigation container the control is injected into. -/
def navTag : List Char := "nav".toList

/-- The injected toggle control element. -/
def controlElem : Dom :=
  .elem
    { tag := "button".toList, classes := [], idAttr := some controlId,
      dataOriginal := none, revealed := false }
    .nil

mutual
/-- Number of elements carrying the control's identifying marker. -/
def countControlsDom : Dom → Nat
  | .text _ => 0
  | .elem e ch => (if e.idAttr = some controlId then 1 else 0) + countControlsList ch
/-- Control count over a list of siblings. -/
def countControlsList : DomList → Nat
  | .nil => 0
  | .cons d ds => countControlsDom d + countControlsList ds
end

mutual
/-- Number of navigation containers in the document. -/
def navCountDom : Dom → Nat
  | .text _ => 0
  | .elem e ch => (if e.tag = navTag then 1 else 0) + navCountList ch
/-- Navigation-container count over a list of siblings. -/
def navCountList : DomList → Nat
  | .nil => 0
  | .cons d ds => navCountDom d + navCountList ds
end

mutual
/-- Number of elements marked as Amount Units in a subtree. -/
def unitCountDom : Dom → Nat
  | .text _ => 0
  | .elem e ch => (if isUnitElem e then 1 else 0) + unitCountList ch
/-- Unit count over a list of siblings. -/
def unitCountList : DomList → Nat
  | .nil => 0
  | .cons d ds => unitCountDom d + unitCountList ds
end

mutual
/-- The graphic-exclusion invariant I3: every vector-graphic subtree of the
document contains no Amount Unit. -/
def svgCleanDom : Dom → Bool
  | .text _ => true
  | .elem e ch => if e.tag = svgTag then unitCountList ch = 0 else svgCleanList ch
/-- Graphic exclusion over a list of siblings. -/
def svgCleanList : DomList → Bool
  | .nil => true
  | .cons d ds => svgCleanDom d && svgCleanList ds
end

/-- Append a node at the end of a children list. -/
def appendChild : DomList → Dom → DomList
  | .nil, x => .cons x .nil
  | .cons d ds, x => .cons d (appendChild ds x)

mutual
/-- Insert the toggle control into the first navigation container in
document order; the boolean reports whether an insertion happened. -/
def insertControlDom : Dom → Dom × Bool
  | .text s => (.text s, false)
  | .elem e ch =>
    if e.tag = navTag then (.elem e (appendChild ch controlElem), true)
    else
      let r := insertControlList ch
      (.elem e r.1, r.2)
/-- Insertion over a list of siblings, stopping after the first success. -/
def insertControlList : DomList → DomList × Bool
  | .nil => (.nil, false)
  | .cons d ds =>
    let r := insertControlDom d
    if r.2 then (.cons r.1 ds, true)
    else
      let rs := insertControlList ds
      (.cons d rs.1, rs.2)
end

/-- Modelled from the spec: the Lifecycle Driver's control injection
(§4.8), as one reconciliation pass — if the control already exists do
nothing, otherwise inject it into the navigation container when that
container is present (absence is non-fatal: retried by a later pass). -/
def ensureSideNav (d : Dom) : Dom :=
  if countControlsDom d ≠ 0 then d else (insertControlDom d).1

/-! ### Fixtures for the concrete witnesses -/

/-- A fixture with a `$` amount inside a vector-graphic subtree. -/
def fixtureSvg : Dom :=
  .elem
    { tag := svgTag, classes := [], idAttr := none,
      dataOriginal := none, revealed := false }
    (.cons (.text "$5.00".toList) .nil)

/-- A fixture document: a plain amount next to the svg fixture, under a
container with a navigation region. -/
def fixtureDoc : Dom :=
  .elem
    { tag := "div".toList, classes := [], idAttr := none,
      dataOriginal := none, revealed := false }
    (.cons
      (.elem
        { tag := navTag, classes := [], idAttr := none,
          dataOriginal := none, revealed := false }
        .nil)
      (.cons (.text "$4,201.28".toList) (.cons fixtureSvg .nil)))
end MTM

namespace MTM

/-! ## Lemmas: whitespace trimming and splitting -/

theorem dropWhile_head_false {p : Char → Bool} :
    ∀ (l : List Char) {c r}, l.dropWhile p = c :: r → p c = false
  | [], _, _, h => by simp [List.dropWhile] at h
  | a :: l, c, r, h => by
    by_cases ha : p a
    · rw [List.dropWhile_cons, if_pos ha] at h
      exact dropWhile_head_false l h
    · rw [List.dropWhile_cons, if_neg ha] at h
      cases h
      simpa using ha

theorem all_ws_ltrim_nil {a : List Char} (h : ∀ c ∈ ltrim a, jsIsWs c = true) :
    ltrim a = [] := by
  cases hl : ltrim a with
  | nil => rfl
  | cons c r =>
    have hc : jsIsWs c = false := dropWhile_head_false _ hl
    have : jsIsWs c = true := h c (hl ▸ List.mem_cons_self c r)
    simp [this] at hc

theorem rtrim_eq_nil_iff {l : List Char} :
    rtrim l = [] ↔ ∀ c ∈ l, jsIsWs c = true := by
  simp [rtrim, List.dropWhile_eq_nil_iff, List.mem_reverse]

theorem rtrim_decomp (l : List Char) :
    ∃ v, l = rtrim l ++ v ∧ ∀ c ∈ v, jsIsWs c = true := by
  refine ⟨(l.reverse.takeWhile jsIsWs).reverse, ?_, ?_⟩
  · conv_lhs => rw [← l.reverse_reverse,
      ← List.takeWhile_append_dropWhile (p := jsIsWs) (l := l.reverse)]
    rw [List.reverse_append]
    rfl
  · intro c hc
    rw [List.mem_reverse] at hc
    exact List.mem_takeWhile_imp hc

theorem takeWhile_append_of_all_false {q : Char → Bool} :
    ∀ (u v : List Char), (∀ c ∈ v, q c = false) →
      (u ++ v).takeWhile q = u.takeWhile q := by
  intro u
  induction u with
  | nil =>
    intro v hv
    cases v with
    | nil => rfl
    | cons c cs => simp [List.takeWhile_cons, hv c (by simp)]
  | cons a u ih =>
    intro v hv
    by_cases h : q a <;> simp [List.takeWhile_cons, h, ih v hv]

theorem splitWsAux_false_headD (l : List Char) :
    ∀ acc, (splitWsAux false l acc).headD [] =
      acc.reverse ++ l.takeWhile (fun c => !jsIsWs c) := by
  induction l with
  | nil => intro acc; simp [splitWsAux]
  | cons c rest ih =>
    intro acc
    by_cases h : jsIsWs c
    · simp [splitWsAux, h, List.takeWhile_cons]
    · have hstep : splitWsAux false (c :: rest) acc = splitWsAux false rest (c :: acc) := by
        simp [splitWsAux, h]
      rw [hstep, ih, List.takeWhile_cons]
      simp [h]

theorem getAuthScheme_some_eq (a : List Char) :
    getAuthScheme (some a) = firstTok a := by
  by_cases ha : a = []
  · subst ha
    simp [getAuthScheme, firstTok, ltrim, jsTrim, rtrim]
  · by_cases ht : jsTrim a = []
    · have h2 : ltrim a = [] := all_ws_ltrim_nil (rtrim_eq_nil_iff.mp ht)
      simp [getAuthScheme, firstTok, ha, ht, h2]
    · have hlt : ltrim a ≠ [] := fun h => ht (by unfold jsTrim; rw [h]; rfl)
      obtain ⟨c, r, hcr⟩ := List.exists_cons_of_ne_nil hlt
      have hcw : jsIsWs c = false := dropWhile_head_false _ hcr
      obtain ⟨v, hdec, hv⟩ := rtrim_decomp (ltrim a)
      have hdec' : ltrim a = jsTrim a ++ v := hdec
      have htake : (ltrim a).takeWhile (fun x => !jsIsWs x) =
          (jsTrim a).takeWhile (fun x => !jsIsWs x) := by
        rw [hdec']
        exact takeWhile_append_of_all_false _ v (fun x hx => by simp [hv x hx])
      rcases he : jsTrim a with _ | ⟨c', r'⟩
      · exact absurd he ht
      · have h3 : c :: r = c' :: (r' ++ v) := by
          rw [← hcr, hdec', he, List.cons_append]
        injection h3 with h4 h5
        subst h4
        have hfirst : (splitWs (jsTrim a)).headD [] =
            (jsTrim a).takeWhile (fun x => !jsIsWs x) := by
          unfold splitWs
          simpa using splitWsAux_false_headD (jsTrim a) []
        have htkw : (jsTrim a).takeWhile (fun x => !jsIsWs x) =
            c :: r'.takeWhile (fun x => !jsIsWs x) := by
          rw [he, List.takeWhile_cons]
          simp [hcw]
        simp only [getAuthScheme, firstTok]
        rw [if_neg ha, if_neg ht, hfirst, htkw, if_neg (List.cons_ne_nil _ _),
          if_neg hlt, htake, htkw]

/-- C8: the live-smoke GraphQL probe never exposes the credential — the
result of `getAuthScheme` depends only on the first whitespace-delimited
token of the `Authorization` header (the scheme), never on the token
value; and a missing, empty, or whitespace-only header yields `null`. -/
theorem C8_getAuthScheme_scheme_only :
    (∀ a b : List Char, firstTok a = firstTok b →
        getAuthScheme (some a) = getAuthScheme (some b)) ∧
    getAuthScheme none = none ∧
    (∀ a : List Char, (∀ c ∈ a, jsIsWs c = true) →
        getAuthScheme (some a) = none) := by
  refine ⟨fun a b h => by rw [getAuthScheme_some_eq, getAuthScheme_some_eq, h],
    rfl, ?_⟩
  intro a ha
  rw [getAuthScheme_some_eq]
  unfold firstTok
  have h2 : ltrim a = [] := by
    unfold ltrim
    rw [List.dropWhile_eq_nil_iff]
    exact fun x hx => ha x hx
  simp [h2]

/-- Witness for C8 at concrete headers: two headers with the same scheme
but different tokens give the same probe result, and degenerate headers
give `null`. -/
theorem C8_getAuthScheme_scheme_only_witness :
    getAuthScheme (some ("Bearer abc123".toList)) =
      getAuthScheme (some ("Bearer zzz".toList)) ∧
    getAuthScheme none = none ∧
    getAuthScheme (some ("  ".toList)) = none :=
  ⟨C8_getAuthScheme_scheme_only.1 _ _ (by decide),
   C8_getAuthScheme_scheme_only.2.1,
   C8_getAuthScheme_scheme_only.2.2 _ (by decide)⟩

/-! ## Lemmas: the sanitizer's money replacement -/

theorem digitCommaDot_toNat {c : Char} (h : isDigitCommaDot c = true) :
    44 ≤ c.toNat ∧ c.toNat ≤ 57 := by
  simp [isDigitCommaDot, Char.isDigit] at h
  rcases h with (⟨h1, h2⟩ | h) | h
  · have g1 : (48 : Nat) ≤ c.val.toNat := UInt32.le_toNat_of_le (by decide) h1
    have g2 : c.val.toNat ≤ (57 : Nat) := UInt32.toNat_le_of_le (by decide) h2
    have g3 : c.toNat = c.val.toNat := rfl
    omega
  · subst h; exact ⟨by decide, by decide⟩
  · subst h; exact ⟨by decide, by decide⟩

theorem not_ws_of_digitCommaDot {c : Char} (h : isDigitCommaDot c = true) :
    jsIsWs c = false := by
  obtain ⟨h1, h2⟩ := digitCommaDot_toNat h
  simp only [jsIsWs, Bool.or_eq_false_iff, Bool.and_eq_false_iff,
    decide_eq_false_iff_not]
  omega

theorem ltrim_cons_of_not_ws {c : Char} {cs : List Char} (h : jsIsWs c = false) :
    ltrim (c :: cs) = c :: cs := by
  simp [ltrim, List.dropWhile_cons, h]

theorem rtrim_eq_self_of_getLast {m : List Char} {c : Char}
    (h : m.getLast? = some c) (hc : jsIsWs c = false) : rtrim m = m := by
  cases hrev : m.reverse with
  | nil =>
    have hm : m = [] := List.reverse_eq_nil_iff.mp hrev
    subst hm
    simp at h
  | cons a as =>
    have hh : (m.reverse).head? = m.getLast? := List.head?_reverse m
    rw [hrev, h] at hh
    have ha : a = c := by simpa using hh
    subst ha
    have hr : rtrim m = ((a :: as).dropWhile jsIsWs).reverse := by rw [rtrim, hrev]
    rw [hr, List.dropWhile_cons, if_neg (by simp [hc]), ← hrev,
      List.reverse_reverse]

theorem getLast?_cons_of_ne_nil {a : Char} {l : List Char} (h : l ≠ []) :
    (a :: l).getLast? = l.getLast? := by
  cases l with
  | nil => exact absurd rfl h
  | cons b t => exact List.getLast?_cons_cons

theorem moneyAlt1_inv {m : List Char} (h : moneyAlt1 m = true) :
    ∃ r, m = '$' :: r ∧ (r.dropWhile jsIsWs) ≠ [] ∧
      ∀ c ∈ r.dropWhile jsIsWs, isDigitCommaDot c = true := by
  cases m with
  | nil => simp [moneyAlt1] at h
  | cons a r =>
    simp only [moneyAlt1, Bool.and_eq_true, decide_eq_true_eq,
      Bool.not_eq_true', List.isEmpty_eq_false, List.all_eq_true] at h
    obtain ⟨⟨ha, hne⟩, hall⟩ := h
    exact ⟨r, by rw [ha], hne, hall⟩

theorem moneyAlt1_last {m : List Char} (h : moneyAlt1 m = true) :
    ∃ c, m.getLast? = some c ∧ isDigitCommaDot c = true := by
  obtain ⟨r, rfl, hne, hall⟩ := moneyAlt1_inv h
  have hdecomp : r = r.takeWhile jsIsWs ++ r.dropWhile jsIsWs :=
    (List.takeWhile_append_dropWhile jsIsWs r).symm
  cases hb : (r.dropWhile jsIsWs).getLast? with
  | none => exact absurd (List.getLast?_eq_none_iff.mp hb) hne
  | some c =>
    refine ⟨c, ?_, hall c (List.mem_of_mem_getLast? hb)⟩
    have hsplit : ('$' :: r) = ('$' :: r.takeWhile jsIsWs) ++ r.dropWhile jsIsWs := by
      conv_lhs => rw [hdecomp]
      rw [List.cons_append]
    rw [hsplit, List.getLast?_append, hb]
    rfl

theorem moneyAlt2_inv {m : List Char} (h : moneyAlt2 m = true) :
    ∃ r2, m = '(' :: '$' :: (r2 ++ [')']) := by
  cases m with
  | nil => simp [moneyAlt2] at h
  | cons a r =>
    cases hlast : r.getLast? with
    | none => simp [moneyAlt2, hlast] at h
    | some d =>
      simp only [moneyAlt2, hlast, Bool.and_eq_true, decide_eq_true_eq] at h
      obtain ⟨ha, hd, h1⟩ := h
      obtain ⟨r2, hdl, -, -⟩ := moneyAlt1_inv h1
      subst ha
      subst hd
      refine ⟨r2, ?_⟩
      have := List.dropLast_append_getLast? ')' hlast
      rw [hdl] at this
      rw [← this, List.cons_append]

theorem moneyAlt3_inv {m : List Char} (h : moneyAlt3 m = true) :
    ∃ r, m = '-' :: r ∧ moneyAlt1 r = true := by
  cases m with
  | nil => simp [moneyAlt3] at h
  | cons a r =>
    simp only [moneyAlt3, Bool.and_eq_true, decide_eq_true_eq] at h
    exact ⟨r, by rw [h.1], h.2⟩

theorem moneyMatch_trim {m : List Char} (h : isMoneyMatch m = true) :
    jsTrim m = m := by
  simp only [isMoneyMatch, Bool.or_eq_true] at h
  rcases h with (h1 | h2) | h3
  · obtain ⟨c, hl, hcd⟩ := moneyAlt1_last h1
    obtain ⟨r, rfl, -, -⟩ := moneyAlt1_inv h1
    rw [jsTrim, ltrim_cons_of_not_ws (by decide),
      rtrim_eq_self_of_getLast hl (not_ws_of_digitCommaDot hcd)]
  · obtain ⟨r2, rfl⟩ := moneyAlt2_inv h2
    have hl : ('(' :: '$' :: (r2 ++ [')'])).getLast? = some ')' := by
      rw [getLast?_cons_of_ne_nil (by simp), getLast?_cons_of_ne_nil (by simp),
        List.getLast?_append]
      rfl
    rw [jsTrim, ltrim_cons_of_not_ws (by decide),
      rtrim_eq_self_of_getLast hl (by decide)]
  · obtain ⟨r, rfl, h1⟩ := moneyAlt3_inv h3
    obtain ⟨c, hl, hcd⟩ := moneyAlt1_last h1
    obtain ⟨r2, hr2, -, -⟩ := moneyAlt1_inv h1
    have hl' : ('-' :: r).getLast? = some c := by
      rw [getLast?_cons_of_ne_nil (by rw [hr2]; simp), hl]
    rw [jsTrim, ltrim_cons_of_not_ws (by decide),
      rtrim_eq_self_of_getLast hl' (not_ws_of_digitCommaDot hcd)]

theorem sanitize_shape {m : List Char} (h : isMoneyMatch m = true) :
    sanitizeMoneyMatch m =
      (if ['(', '$'].isPrefixOf (jsTrim m) = true then "($1,234.56)".toList
       else if ['-', '$'].isPrefixOf (jsTrim m) = true then "-$1,234.56".toList
       else "$1,234.56".toList) := by
  have htrim := moneyMatch_trim h
  simp only [isMoneyMatch, Bool.or_eq_true] at h
  rcases h with (h1 | h2) | h3
  · obtain ⟨r, rfl, -, -⟩ := moneyAlt1_inv h1
    simp [sanitizeMoneyMatch, htrim, List.isPrefixOf]
  · obtain ⟨r2, rfl⟩ := moneyAlt2_inv h2
    simp [sanitizeMoneyMatch, htrim, List.isPrefixOf]
  · obtain ⟨r, rfl, h1⟩ := moneyAlt3_inv h3
    obtain ⟨r2, hr2, -, -⟩ := moneyAlt1_inv h1
    subst hr2
    simp [sanitizeMoneyMatch, htrim, List.isPrefixOf]

/-- C9 counterexample: "no digit of the original amount appears in the
output" fails as stated — for the matched input `$1,234.56` the output
equals the input, so every digit of the original appears in the output
(in particular the original's digit `1`). -/
theorem C9_counterexample_digit_appears :
    isMoneyMatch ("$1,234.56".toList) = true ∧
    sanitizeMoneyMatch ("$1,234.56".toList) = "$1,234.56".toList ∧
    '1' ∈ "$1,234.56".toList ∧ '1'.isDigit = true ∧
    '1' ∈ sanitizeMoneyMatch ("$1,234.56".toList) := by
  refine ⟨by decide, by decide, by decide, by decide, by decide⟩

/-- C9 (amended): for every string matched by the sanitizer's money
pattern, `sanitizeMoneyMatch` returns exactly `$1,234.56`, prefixed with
`-` iff the trimmed input starts with `-$`, and wrapped in parentheses iff
the trimmed input starts with `($`; the output is a fixed template
independent of the input's digits — any two matches with the same
sign/parenthesis classification produce identical output (a template
digit may coincide with a digit of the original, but no digit is carried
over). -/
theorem C9_sanitizeMoneyMatch_template (m : List Char)
    (h : isMoneyMatch m = true) :
    (sanitizeMoneyMatch m =
      (if ['(', '$'].isPrefixOf (jsTrim m) = true then "($1,234.56)".toList
       else if ['-', '$'].isPrefixOf (jsTrim m) = true then "-$1,234.56".toList
       else "$1,234.56".toList)) ∧
    (['-'].isPrefixOf (sanitizeMoneyMatch m) = true ↔
      ['-', '$'].isPrefixOf (jsTrim m) = true) ∧
    (((sanitizeMoneyMatch m).head? = some '(' ∧
        (sanitizeMoneyMatch m).getLast? = some ')') ↔
      ['(', '$'].isPrefixOf (jsTrim m) = true) ∧
    (∀ m' : List Char, isMoneyMatch m' = true →
      ['-', '$'].isPrefixOf (jsTrim m') = ['-', '$'].isPrefixOf (jsTrim m) →
      ['(', '$'].isPrefixOf (jsTrim m') = ['(', '$'].isPrefixOf (jsTrim m) →
      sanitizeMoneyMatch m' = sanitizeMoneyMatch m) := by
  refine ⟨sanitize_shape h, ?_, ?_,
    fun m' h' e1 e2 => by rw [sanitize_shape h', sanitize_shape h, e1, e2]⟩
  all_goals {
    have htrim := moneyMatch_trim h
    have hsh := sanitize_shape h
    simp only [isMoneyMatch, Bool.or_eq_true] at h
    rcases h with (h1 | h2) | h3
    · obtain ⟨r, rfl, -, -⟩ := moneyAlt1_inv h1
      rw [hsh]
      simp [htrim, List.isPrefixOf]
    · obtain ⟨r2, rfl⟩ := moneyAlt2_inv h2
      rw [hsh]
      simp [htrim, List.isPrefixOf]
    · obtain ⟨r, rfl, h1⟩ := moneyAlt3_inv h3
      obtain ⟨r2, hr2, -, -⟩ := moneyAlt1_inv h1
      subst hr2
      rw [hsh]
      simp [htrim, List.isPrefixOf]
  }

/-! ## Lemmas: UUID normalization -/

theorem replaceUuids_nil (prev : Option Char) : replaceUuids prev [] = [] := by
  rw [replaceUuids]

theorem replaceUuids_cons (prev : Option Char) (c : Char) (cs : List Char) :
    replaceUuids prev (c :: cs) =
      if matchesTemplate uuidTemplate (c :: cs) && boundaryBeforeOk prev &&
          boundaryAfterOk (cs.drop 35) then
        zeroUuid ++ replaceUuids (some '0') (cs.drop 35)
      else c :: replaceUuids (some c) cs := by
  rw [replaceUuids]

theorem matchesTemplate_zeroOf (tpl : List Char) :
    ∀ r, matchesTemplate tpl (zeroOf tpl ++ r) = true := by
  induction tpl with
  | nil => intro r; rfl
  | cons t ts ih =>
    intro r
    simp only [zeroOf, List.map_cons, List.cons_append, matchesTemplate,
      Bool.and_eq_true]
    constructor
    · by_cases ht : t = '-'
      · simp [slotMatches, ht]
      · simp [slotMatches, ht]
        decide
    · exact ih r

theorem forall₂_charSim_take_zeroOf {tpl : List Char} :
    ∀ {l}, matchesTemplate tpl l = true →
      List.Forall₂ charSim (l.take tpl.length) (zeroOf tpl) := by
  induction tpl with
  | nil => intro l h; simp [zeroOf]
  | cons t ts ih =>
    intro l h
    cases l with
    | nil => simp [matchesTemplate] at h
    | cons c cs =>
      simp only [matchesTemplate, Bool.and_eq_true] at h
      obtain ⟨hs, hrest⟩ := h
      simp only [List.length_cons, List.take_succ_cons, zeroOf, List.map_cons]
      refine List.Forall₂.cons ?_ (ih hrest)
      by_cases ht : t = '-'
      · left
        simp [slotMatches, ht] at hs
        simp [ht, hs]
      · right
        simp [slotMatches, ht] at hs
        exact ⟨hs, by simp [ht]⟩

theorem word_of_hex {a : Char} (h : isHexDigit a = true) : isWordChar a = true := by
  simp only [isHexDigit, Bool.or_eq_true, Bool.and_eq_true, decide_eq_true_eq] at h
  simp only [isWordChar, Bool.or_eq_true, Bool.and_eq_true, decide_eq_true_eq]
  rcases h with (hd | ⟨h1, h2⟩) | ⟨h1, h2⟩
  · left; right; exact hd
  · left; left; left; exact ⟨h1, le_trans h2 (by decide)⟩
  · left; left; right; exact ⟨h1, le_trans h2 (by decide)⟩

theorem charSim_hex {a b : Char} (h : charSim a b) :
    isHexDigit b = isHexDigit a := by
  rcases h with rfl | ⟨hhex, rfl⟩
  · rfl
  · rw [hhex]; decide

theorem charSim_word {a b : Char} (h : charSim a b) :
    isWordChar b = isWordChar a := by
  rcases h with rfl | ⟨hhex, rfl⟩
  · rfl
  · rw [word_of_hex hhex]; decide

theorem charSim_dash {a b : Char} (h : charSim a b) : b = '-' ↔ a = '-' := by
  rcases h with rfl | ⟨hhex, rfl⟩
  · exact Iff.rfl
  · constructor
    · intro h0; exact absurd h0 (by decide)
    · intro ha; rw [ha] at hhex; exact absurd hhex (by decide)

theorem charSim_slot {t a b : Char} (h : charSim a b) :
    slotMatches t b = slotMatches t a := by
  by_cases ht : t = '-'
  · simp only [slotMatches, if_pos ht]
    exact decide_eq_decide.mpr (charSim_dash h)
  · simp only [slotMatches, if_neg ht]
    exact charSim_hex h

theorem forall₂_charSim_matches {tpl : List Char} :
    ∀ {l l'}, List.Forall₂ charSim l l' →
      matchesTemplate tpl l' = matchesTemplate tpl l := by
  induction tpl with
  | nil => intro l l' _; rfl
  | cons t ts ih =>
    intro l l' h
    cases h with
    | nil => rfl
    | cons hab hrest =>
      simp only [matchesTemplate]
      rw [charSim_slot hab, ih hrest]

theorem forall₂_charSim_after {l l' : List Char}
    (h : List.Forall₂ charSim l l') :
    boundaryAfterOk l' = boundaryAfterOk l := by
  cases h with
  | nil => rfl
  | cons hab hrest => simp [boundaryAfterOk, charSim_word hab]

theorem forall₂_charSim_replace : ∀ (n : Nat) (l : List Char), l.length ≤ n →
    ∀ prev, List.Forall₂ charSim l (replaceUuids prev l) := by
  intro n
  induction n with
  | zero =>
    intro l hl prev
    have hnil : l = [] := List.eq_nil_of_length_eq_zero (Nat.le_zero.mp hl)
    subst hnil
    rw [replaceUuids_nil]
    exact List.Forall₂.nil
  | succ m ih =>
    intro l hl prev
    cases l with
    | nil =>
      rw [replaceUuids_nil]
      exact List.Forall₂.nil
    | cons c cs =>
      have hcs : cs.length ≤ m := by simpa using hl
      have hlen : (cs.drop 35).length ≤ m := by
        simp only [List.length_drop]
        omega
      rw [replaceUuids_cons]
      by_cases hcond : (matchesTemplate uuidTemplate (c :: cs) &&
          boundaryBeforeOk prev && boundaryAfterOk (cs.drop 35)) = true
      · rw [if_pos hcond]
        simp only [Bool.and_eq_true] at hcond
        have hm : matchesTemplate uuidTemplate (c :: cs) = true := hcond.1.1
        have hsplit : c :: cs = (c :: cs).take 36 ++ (c :: cs).drop 36 :=
          (List.take_append_drop _ _).symm
        have h36 : uuidTemplate.length = 36 := by decide
        have hz : List.Forall₂ charSim ((c :: cs).take 36) zeroUuid := by
          have hzz := @forall₂_charSim_take_zeroOf uuidTemplate _ hm
          rwa [h36] at hzz
        have hdrop : (c :: cs).drop 36 = cs.drop 35 := rfl
        conv_lhs => rw [hsplit, hdrop]
        exact List.rel_append hz (ih (cs.drop 35) hlen (some '0'))
      · rw [if_neg hcond]
        exact List.Forall₂.cons (Or.inl rfl) (ih cs hcs (some c))

theorem replaceUuids_twice : ∀ (n : Nat) (l : List Char), l.length ≤ n →
    ∀ prev1 prev2, wordishOpt prev1 = wordishOpt prev2 →
      replaceUuids prev1 (replaceUuids prev2 l) = replaceUuids prev2 l := by
  intro n
  induction n with
  | zero =>
    intro l hl prev1 prev2 _
    have hnil : l = [] := List.eq_nil_of_length_eq_zero (Nat.le_zero.mp hl)
    subst hnil
    rw [replaceUuids_nil, replaceUuids_nil]
  | succ m ih =>
    intro l hl prev1 prev2 hw
    cases l with
    | nil => rw [replaceUuids_nil, replaceUuids_nil]
    | cons c cs =>
      have hcs : cs.length ≤ m := by simpa using hl
      have hlen : (cs.drop 35).length ≤ m := by
        simp only [List.length_drop]
        omega
      rw [replaceUuids_cons]
      by_cases hcond : (matchesTemplate uuidTemplate (c :: cs) &&
          boundaryBeforeOk prev2 && boundaryAfterOk (cs.drop 35)) = true
      · rw [if_pos hcond]
        simp only [Bool.and_eq_true] at hcond
        obtain ⟨⟨hA, hB⟩, hC⟩ := hcond
        have hrel : List.Forall₂ charSim (cs.drop 35)
            (replaceUuids (some '0') (cs.drop 35)) :=
          forall₂_charSim_replace m (cs.drop 35) hlen (some '0')
        obtain ⟨zr, hzr⟩ : ∃ zr, zeroUuid = '0' :: zr :=
          ⟨"0000000-0000-0000-0000-000000000000".toList, by decide⟩
        have hlz : zr.length = 35 := by
          have h36 : zeroUuid.length = 36 := by decide
          rw [hzr] at h36
          simp at h36
          omega
        rw [hzr, List.cons_append, replaceUuids_cons]
        have hdropzr : (zr ++ replaceUuids (some '0') (cs.drop 35)).drop 35 =
            replaceUuids (some '0') (cs.drop 35) := by
          rw [← hlz, List.drop_left]
        have hA2 : matchesTemplate uuidTemplate
            ('0' :: (zr ++ replaceUuids (some '0') (cs.drop 35))) = true := by
          rw [← List.cons_append, ← hzr]
          exact matchesTemplate_zeroOf uuidTemplate _
        have hB2 : boundaryBeforeOk prev1 = true := by
          rw [boundaryBeforeOk, hw]
          exact hB
        have hC2 : boundaryAfterOk (replaceUuids (some '0') (cs.drop 35)) = true := by
          rw [forall₂_charSim_after hrel]
          exact hC
        rw [if_pos (by rw [hdropzr]; simp [hA2, hB2, hC2]), hdropzr,
          ih (cs.drop 35) hlen (some '0') (some '0') rfl, hzr, List.cons_append]
      · rw [if_neg hcond]
        rw [replaceUuids_cons]
        have hrel : List.Forall₂ charSim cs (replaceUuids (some c) cs) :=
          forall₂_charSim_replace m cs hcs (some c)
        have hA2 : matchesTemplate uuidTemplate (c :: replaceUuids (some c) cs) =
            matchesTemplate uuidTemplate (c :: cs) :=
          forall₂_charSim_matches (List.Forall₂.cons (Or.inl rfl) hrel)
        have hC2 : boundaryAfterOk ((replaceUuids (some c) cs).drop 35) =
            boundaryAfterOk (cs.drop 35) :=
          forall₂_charSim_after (List.forall₂_drop 35 hrel)
        have hBeq : boundaryBeforeOk prev1 = boundaryBeforeOk prev2 := by
          rw [boundaryBeforeOk, boundaryBeforeOk, hw]
        have hsame : (matchesTemplate uuidTemplate (c :: replaceUuids (some c) cs) &&
            boundaryBeforeOk prev1 &&
            boundaryAfterOk ((replaceUuids (some c) cs).drop 35)) =
            (matchesTemplate uuidTemplate (c :: cs) && boundaryBeforeOk prev2 &&
            boundaryAfterOk (cs.drop 35)) := by
          rw [hA2, hBeq, hC2]
        rw [if_neg (by rw [hsame]; exact hcond),
          ih cs hcs (some c) (some c) rfl]

/-- C10: snapshot normalization is idempotent — replacing every
word-bounded UUID with the all-zero UUID is stable under a second pass,
because the replacement has the same length, hex-digit positions and
word-boundary structure as the UUID it replaces. -/
theorem C10_normalizeHtml_idempotent (s : List Char) :
    normalizeHtml (normalizeHtml s) = normalizeHtml s :=
  replaceUuids_twice s.length s le_rfl none none rfl

/-- Witness for C9's amended theorem at a concrete matched input. -/
theorem C9_sanitizeMoneyMatch_template_witness :
    sanitizeMoneyMatch ("-$150.00".toList) =
      (if ['(', '$'].isPrefixOf (jsTrim ("-$150.00".toList)) = true
        then "($1,234.56)".toList
       else if ['-', '$'].isPrefixOf (jsTrim ("-$150.00".toList)) = true
        then "-$1,234.56".toList
       else "$1,234.56".toList) ∧
    sanitizeMoneyMatch ("-$99,999.99".toList) =
      sanitizeMoneyMatch ("-$150.00".toList) :=
  ⟨(C9_sanitizeMoneyMatch_template ("-$150.00".toList) (by decide)).1,
   (C9_sanitizeMoneyMatch_template ("-$150.00".toList) (by decide)).2.2.2
     ("-$99,999.99".toList) (by decide) (by decide) (by decide)⟩

/-! ## Theorems about the spec-modelled masking core -/

/-- C4: the Mask Renderer maps every matched amount to the fixed canonical
template regardless of the input's digit count — `$4,201.28` masks to
`$*,***.**`, `-$150.00` to `-$*,***.**`, `($99.00)` to `($*,***.**)`, and
any two amounts with the same sign classification (a one-digit and a
six-digit amount included) mask to the same template. -/
theorem C4_mask_canonical_template :
    maskText ("$4,201.28".toList) = "$*,***.**".toList ∧
    maskText ("-$150.00".toList) = "-$*,***.**".toList ∧
    maskText ("($99.00)".toList) = "($*,***.**)".toList ∧
    maskText ("$1.00".toList) = maskText ("$123,456.78".toList) ∧
    (∀ (s : List Char) (g : MoneySign), classifySign s = some g →
      maskText s = maskTemplate g) := by
  refine ⟨by decide, by decide, by decide, by decide, ?_⟩
  intro s g h
  simp [maskText, h]

/-- Witness for C4 at a concrete classified amount. -/
theorem C4_mask_canonical_template_witness :
    maskText ("$7.77".toList) = maskTemplate MoneySign.pos :=
  C4_mask_canonical_template.2.2.2.2 _ _ (by decide)

/-- C5: with the preference ON, a route outside the allow-list yields an
inert state — `isActive` is false, `applyState` does nothing, and no
Amount Units are created. -/
theorem C5_route_gating (st : Storage) (p : List Char) (d : Dom)
    (_hpref : getPref st = true) (hroute : routeEligible p = false) :
    isActive st p = false ∧ applyState p st d = d ∧
    unitsDom (applyState p st d) = unitsDom d := by
  refine ⟨?_, ?_, ?_⟩
  · simp [isActive, hroute]
  · simp [applyState, hroute]
  · simp [applyState, hroute]

/-- Witness for C5: the unsupported route `/reports` with preference ON. -/
theorem C5_route_gating_witness :
    isActive (setPref true []) ("/reports".toList) = false ∧
    applyState ("/reports".toList) (setPref true []) fixtureDoc = fixtureDoc ∧
    unitsDom (applyState ("/reports".toList) (setPref true []) fixtureDoc) =
      unitsDom fixtureDoc :=
  C5_route_gating _ _ _ (by decide) (by decide)

/-- C6: the persisted preference is one durable key holding `"1"` when
enabled and `"0"` when disabled, absent means OFF at startup, and the
Applier reads but never writes the store (only the toggle mutates it). -/
theorem C6_pref_contract :
    (∀ st : Storage, lookupKey prefKey st = none → getPref st = false) ∧
    (∀ (st : Storage) (b : Bool),
      lookupKey prefKey (setPref b st) =
        some (if b then "1".toList else "0".toList)) ∧
    (∀ (st : Storage) (b : Bool), getPref (setPref b st) = b) ∧
    (∀ s : SysState, (applyStateS s).storage = s.storage) := by
  refine ⟨?_, ?_, ?_, fun s => rfl⟩
  · intro st h
    simp [getPref, h]
  · intro st b
    simp [setPref, lookupKey]
  · intro st b
    cases b <;> simp [getPref, setPref, lookupKey]

/-- Witness for C6 at concrete stores. -/
theorem C6_pref_contract_witness :
    getPref [] = false ∧
    lookupKey prefKey (setPref true []) = some ("1".toList) ∧
    getPref (setPref false (setPref true [])) = false ∧
    (applyStateS ⟨fixtureDoc, setPref true [], "/dashboard".toList⟩).storage =
      setPref true [] :=
  ⟨C6_pref_contract.1 [] rfl, C6_pref_contract.2.1 [] true,
   C6_pref_contract.2.2.1 (setPref true []) false,
   C6_pref_contract.2.2.2 ⟨fixtureDoc, setPref true [], "/dashboard".toList⟩⟩

/-! ### Scanner idempotence (C2) -/

mutual
theorem scanDom_idem (m : Bool) : ∀ d : Dom, scanDom m (scanDom m d) = scanDom m d
  | .text s => by
    by_cases h : hasMoney s = true
    · simp [scanDom, h, mkUnit, isUnitElem, unitClass]
    · simp [scanDom, h]
  | .elem e ch => by
    by_cases h : (isUnitElem e || e.tag = svgTag) = true
    · simp [scanDom, h]
    · simp [scanDom, h, scanList_idem m ch]
theorem scanList_idem (m : Bool) : ∀ ds : DomList,
    scanList m (scanList m ds) = scanList m ds
  | .nil => rfl
  | .cons d ds => by simp [scanList, scanDom_idem m d, scanList_idem m ds]
end

/-- C2: wrapping is idempotent — running the Scanner twice over an
unchanged document yields exactly the document of one run (hence the same
set of Amount Units), and an element already marked as a unit is left
untouched (re-wrapping is a no-op). -/
theorem C2_scanner_idempotent :
    (∀ (m : Bool) (d : Dom), scanDom m (scanDom m d) = scanDom m d) ∧
    (∀ (m : Bool) (d : Dom),
      unitsDom (scanDom m (scanDom m d)) = unitsDom (scanDom m d)) ∧
    (∀ (m : Bool) (e : ElemData) (ch : DomList), isUnitElem e = true →
      scanDom m (.elem e ch) = .elem e ch) := by
  refine ⟨fun m d => scanDom_idem m d,
    fun m d => by rw [scanDom_idem m d], ?_⟩
  intro m e ch h
  simp [scanDom, h]

/-- Witness for C2 at a concrete document and a concrete marked unit. -/
theorem C2_scanner_idempotent_witness :
    scanDom true (scanDom true fixtureDoc) = scanDom true fixtureDoc ∧
    scanDom true
        (.elem ⟨"span".toList, [unitClass], none, some ("$5.00".toList), false⟩
          DomList.nil) =
      .elem ⟨"span".toList, [unitClass], none, some ("$5.00".toList), false⟩
        DomList.nil :=
  ⟨C2_scanner_idempotent.1 true fixtureDoc,
   C2_scanner_idempotent.2.2 true _ _ (by decide)⟩

/-! ### Toggle injection uniqueness (C7) -/

theorem countControls_appendChild : ∀ (ds : DomList) (x : Dom),
    countControlsList (appendChild ds x) = countControlsList ds + countControlsDom x
  | .nil, x => by simp [appendChild, countControlsList]
  | .cons d ds, x => by
    simp only [appendChild, countControlsList, countControls_appendChild ds x]
    omega

mutual
theorem insertControl_nf_dom : ∀ d : Dom, (insertControlDom d).2 = false →
    (insertControlDom d).1 = d
  | .text s => fun _ => rfl
  | .elem e ch => by
    intro h
    by_cases ht : e.tag = navTag
    · simp [insertControlDom, ht] at h
    · simp only [insertControlDom, if_neg ht] at h ⊢
      rw [insertControl_nf_list ch h]
theorem insertControl_nf_list : ∀ ds : DomList, (insertControlList ds).2 = false →
    (insertControlList ds).1 = ds
  | .nil => fun _ => rfl
  | .cons d ds => by
    intro h
    by_cases hd : (insertControlDom d).2 = true
    · simp [insertControlList, hd] at h
    · simp only [Bool.not_eq_true] at hd
      simp only [insertControlList, hd, if_neg] at h ⊢
      simp only [Bool.false_eq_true, if_false] at h ⊢
      rw [insertControl_nf_list ds h]
end

mutual
theorem insertControl_flag_dom : ∀ d : Dom,
    (insertControlDom d).2 = true ↔ 0 < navCountDom d
  | .text s => by simp [insertControlDom, navCountDom]
  | .elem e ch => by
    by_cases ht : e.tag = navTag
    · simp [insertControlDom, navCountDom, ht]
    · simp only [insertControlDom, if_neg ht, navCountDom]
      rw [insertControl_flag_list ch]
      simp [ht]
theorem insertControl_flag_list : ∀ ds : DomList,
    (insertControlList ds).2 = true ↔ 0 < navCountList ds
  | .nil => by simp [insertControlList, navCountList]
  | .cons d ds => by
    by_cases hd : (insertControlDom d).2 = true
    · simp only [insertControlList, hd, if_true]
      have := (insertControl_flag_dom d).mp hd
      simp [navCountList]
      omega
    · simp only [Bool.not_eq_true] at hd
      simp only [insertControlList, hd, Bool.false_eq_true, if_false, navCountList]
      rw [insertControl_flag_list ds]
      have hcnt : navCountDom d = 0 := by
        by_contra hne
        have := (insertControl_flag_dom d).mpr (Nat.pos_of_ne_zero hne)
        rw [hd] at this
        exact Bool.false_ne_true this
      omega
end

mutual
theorem insertControl_count_dom : ∀ d : Dom,
    countControlsDom (insertControlDom d).1 =
      countControlsDom d + (if (insertControlDom d).2 then 1 else 0)
  | .text s => rfl
  | .elem e ch => by
    by_cases ht : e.tag = navTag
    · simp only [insertControlDom, if_pos ht, countControlsDom]
      rw [countControls_appendChild ch controlElem]
      have hc : countControlsDom controlElem = 1 := by decide
      rw [hc, if_pos trivial]
      omega
    · simp only [insertControlDom, if_neg ht, countControlsDom]
      rw [insertControl_count_list ch]
      omega
theorem insertControl_count_list : ∀ ds : DomList,
    countControlsList (insertControlList ds).1 =
      countControlsList ds + (if (insertControlList ds).2 then 1 else 0)
  | .nil => rfl
  | .cons d ds => by
    by_cases hd : (insertControlDom d).2 = true
    · simp only [insertControlList, hd, if_true, countControlsList]
      have := insertControl_count_dom d
      rw [hd] at this
      simp at this
      omega
    · simp only [Bool.not_eq_true] at hd
      simp only [insertControlList, hd, Bool.false_eq_true, if_false,
        countControlsList]
      rw [insertControl_count_list ds]
      omega
end

/-- C7: the toggle control is injected exactly once — when the navigation
container is absent the pass is a no-op (retried later), an injection into
a present container produces exactly one control, and repeated
reconciliation passes are idempotent (no duplicate control). -/
theorem C7_toggle_injection_unique (d : Dom) :
    (navCountDom d = 0 → ensureSideNav d = d) ∧
    (countControlsDom d = 0 → countControlsDom (ensureSideNav d) ≤ 1) ∧
    ensureSideNav (ensureSideNav d) = ensureSideNav d ∧
    (countControlsDom d = 0 → 0 < navCountDom d →
      countControlsDom (ensureSideNav d) = 1) := by
  have hflag := insertControl_flag_dom d
  have hcount := insertControl_count_dom d
  refine ⟨?_, ?_, ?_, ?_⟩
  · intro hnav
    have hf : (insertControlDom d).2 = false := by
      by_contra hne
      simp only [Bool.not_eq_false] at hne
      have := hflag.mp hne
      omega
    by_cases hc : countControlsDom d ≠ 0
    · simp [ensureSideNav, hc]
    · simp only [ensureSideNav, if_neg hc]
      exact insertControl_nf_dom d hf
  · intro hc
    simp only [ensureSideNav, hc, ne_eq, not_true_eq_false, if_false]
    rw [hcount, hc]
    by_cases hf : (insertControlDom d).2 = true <;> simp [hf]
  · by_cases hc : countControlsDom d ≠ 0
    · simp [ensureSideNav, hc]
    · simp only [not_not] at hc
      simp only [ensureSideNav, hc, ne_eq, not_true_eq_false, if_false]
      by_cases hf : (insertControlDom d).2 = true
      · have h1 : countControlsDom (insertControlDom d).1 = 1 := by
          rw [hcount, hc, hf]
          simp
        simp [ensureSideNav, h1]
      · simp only [Bool.not_eq_true] at hf
        rw [insertControl_nf_dom d hf]
        simp [ensureSideNav, hc]
        exact insertControl_nf_dom d hf
  · intro hc hnav
    have hf : (insertControlDom d).2 = true := hflag.mpr hnav
    simp only [ensureSideNav, hc, ne_eq, not_true_eq_false, if_false]
    rw [hcount, hc, hf]
    simp

/-- Witness for C7: a document with a navigation region and no control
gets exactly one control, stably; a document without a navigation region
is left unchanged. -/
theorem C7_toggle_injection_unique_witness :
    countControlsDom (ensureSideNav fixtureDoc) = 1 ∧
    ensureSideNav (ensureSideNav fixtureDoc) = ensureSideNav fixtureDoc ∧
    ensureSideNav fixtureSvg = fixtureSvg :=
  ⟨(C7_toggle_injection_unique fixtureDoc).2.2.2 (by decide) (by decide),
   (C7_toggle_injection_unique fixtureDoc).2.2.1,
   (C7_toggle_injection_unique fixtureSvg).1 (by decide)⟩

/-! ### Graphic exclusion (C3) -/

mutual
theorem unitCount_setDisplay_dom (m : Bool) : ∀ d : Dom,
    unitCountDom (setDisplayDom m d) ≤ unitCountDom d
  | .text _ => le_refl _
  | .elem e ch => by
    by_cases hu : isUnitElem e = true
    · rcases ho : e.dataOriginal with _ | o
      · simp [setDisplayDom, hu, ho]
      · cases hrev : e.revealed
        · have hstep : setDisplayDom m (.elem e ch) =
              .elem e (.cons (.text (if m then maskText o else o)) .nil) := by
            simp [setDisplayDom, hu, ho, hrev]
          rw [hstep]
          simp only [unitCountDom, unitCountList]
          omega
        · simp [setDisplayDom, hu, ho, hrev]
    · simp only [setDisplayDom, if_neg hu, unitCountDom]
      have := unitCount_setDisplay_list m ch
      omega
theorem unitCount_setDisplay_list (m : Bool) : ∀ ds : DomList,
    unitCountList (setDisplayList m ds) ≤ unitCountList ds
  | .nil => le_refl _
  | .cons d ds => by
    simp only [setDisplayList, unitCountList]
    have h1 := unitCount_setDisplay_dom m d
    have h2 := unitCount_setDisplay_list m ds
    omega
end

mutual
theorem svgClean_setDisplay_dom (m : Bool) : ∀ d : Dom,
    svgCleanDom d = true → svgCleanDom (setDisplayDom m d) = true
  | .text _ => fun h => h
  | .elem e ch => by
    intro h
    by_cases hu : isUnitElem e = true
    · rcases ho : e.dataOriginal with _ | o
      · simpa [setDisplayDom, hu, ho] using h
      · cases hrev : e.revealed
        · by_cases ht : e.tag = svgTag
          · simp [setDisplayDom, hu, ho, hrev, svgCleanDom, ht, unitCountList,
              unitCountDom]
          · simp [setDisplayDom, hu, ho, hrev, svgCleanDom, ht, svgCleanList]
        · simpa [setDisplayDom, hu, ho, hrev] using h
    · by_cases ht : e.tag = svgTag
      · have hle := unitCount_setDisplay_list m ch
        simp only [setDisplayDom, if_neg hu]
        simp only [svgCleanDom, if_pos ht, decide_eq_true_eq] at h ⊢
        omega
      · simp only [setDisplayDom, if_neg hu]
        simp only [svgCleanDom, if_neg ht] at h ⊢
        exact svgClean_setDisplay_list m ch h
theorem svgClean_setDisplay_list (m : Bool) : ∀ ds : DomList,
    svgCleanList ds = true → svgCleanList (setDisplayList m ds) = true
  | .nil => fun h => h
  | .cons d ds => by
    intro h
    simp only [setDisplayList, svgCleanList, Bool.and_eq_true] at h ⊢
    exact ⟨svgClean_setDisplay_dom m d h.1, svgClean_setDisplay_list m ds h.2⟩
end

mutual
theorem svgClean_scan_dom (m : Bool) : ∀ d : Dom,
    svgCleanDom d = true → svgCleanDom (scanDom m d) = true
  | .text s => by
    intro h
    by_cases hm : hasMoney s = true
    · simp [scanDom, hm, mkUnit, svgCleanDom, svgCleanList]
      left
      decide
    · simpa [scanDom, hm] using h
  | .elem e ch => by
    intro h
    by_cases hs : (isUnitElem e || e.tag = svgTag) = true
    · simpa [scanDom, hs] using h
    · have ht : ¬(e.tag = svgTag) := by
        intro hteq
        exact hs (by simp [hteq])
      simp only [scanDom, if_neg hs]
      simp only [svgCleanDom, if_neg ht] at h ⊢
      exact svgClean_scan_list m ch h
theorem svgClean_scan_list (m : Bool) : ∀ ds : DomList,
    svgCleanList ds = true → svgCleanList (scanList m ds) = true
  | .nil => fun h => h
  | .cons d ds => by
    intro h
    simp only [scanList, svgCleanList, Bool.and_eq_true] at h ⊢
    exact ⟨svgClean_scan_dom m d h.1, svgClean_scan_list m ds h.2⟩
end

theorem svgClean_applyState (p : List Char) (st : Storage) (d : Dom)
    (h : svgCleanDom d = true) : svgCleanDom (applyState p st d) = true := by
  by_cases hr : routeEligible p = true
  · simp only [applyState, if_pos hr]
    exact svgClean_setDisplay_dom _ _ (svgClean_scan_dom _ _ h)
  · simpa [applyState, hr] using h

/-- C3: graphic exclusion — in a document whose vector-graphic subtrees
contain no Amount Unit (any fixture, including one with a `$` inside an
SVG), no scan or apply pass ever creates a unit inside an SVG subtree,
for any number of passes. -/
theorem C3_svg_exclusion (d : Dom) (h : svgCleanDom d = true) :
    (∀ (m : Bool) (n : Nat), svgCleanDom ((scanDom m)^[n] d) = true) ∧
    (∀ (p : List Char) (st : Storage) (n : Nat),
      svgCleanDom ((applyState p st ·)^[n] d) = true) := by
  constructor
  · intro m n
    induction n with
    | zero => simpa using h
    | succ k ih =>
      rw [Function.iterate_succ_apply']
      exact svgClean_scan_dom m _ ih
  · intro p st n
    induction n with
    | zero => simpa using h
    | succ k ih =>
      rw [Function.iterate_succ_apply']
      exact svgClean_applyState p st _ ih

/-- Witness for C3: the fixture with `$5.00` inside an SVG stays clean
over two scans and three apply passes. -/
theorem C3_svg_exclusion_witness :
    svgCleanDom ((scanDom true)^[2] fixtureDoc) = true ∧
    svgCleanDom
      ((applyState ("/dashboard".toList) (setPref true []) ·)^[3] fixtureDoc) =
      true :=
  ⟨(C3_svg_exclusion fixtureDoc (by decide)).1 true 2,
   (C3_svg_exclusion fixtureDoc (by decide)).2 ("/dashboard".toList)
     (setPref true []) 3⟩

/-! ### Round trip of the global toggle (C1) -/

theorem getPref_setPref (b : Bool) (st : Storage) : getPref (setPref b st) = b := by
  cases b <;> simp [getPref, setPref, lookupKey]

mutual
theorem units_scan_dom (m : Bool) : ∀ d : Dom,
    (∀ u ∈ unitsDom d, u.revealed = false) →
    ∀ u ∈ unitsDom (scanDom m d), u.revealed = false
  | .text s => by
    intro h u hu
    by_cases hm : hasMoney s = true
    · simp only [scanDom, if_pos hm] at hu
      have hunits : unitsDom (mkUnit m s) =
          [⟨s, (if m then maskText s else s), false⟩] := by
        simp [mkUnit, unitsDom, isUnitElem, unitClass, textContentList,
          textContentDom]
      rw [hunits] at hu
      simp at hu
      subst hu
      rfl
    · simp [scanDom, hm, unitsDom] at hu
  | .elem e ch => by
    intro h u hu
    by_cases hs : (isUnitElem e || e.tag = svgTag) = true
    · simp only [scanDom, if_pos hs] at hu
      exact h u hu
    · have hue : ¬(isUnitElem e = true) := by
        intro hx
        exact hs (by simp [hx])
      simp only [scanDom, if_neg hs] at hu
      simp only [unitsDom, if_neg hue] at hu h
      exact units_scan_list m ch h u hu
theorem units_scan_list (m : Bool) : ∀ ds : DomList,
    (∀ u ∈ unitsList ds, u.revealed = false) →
    ∀ u ∈ unitsList (scanList m ds), u.revealed = false
  | .nil => fun h => h
  | .cons d ds => by
    intro h u hu
    simp only [scanList, unitsList, List.mem_append] at hu
    simp only [unitsList, List.mem_append] at h
    rcases hu with hu | hu
    · exact units_scan_dom m d (fun v hv => h v (Or.inl hv)) u hu
    · exact units_scan_list m ds (fun v hv => h v (Or.inr hv)) u hu
end

mutual
theorem units_setDisplay_dom (m : Bool) : ∀ d : Dom,
    (∀ u ∈ unitsDom d, u.revealed = false) →
    ∀ u ∈ unitsDom (setDisplayDom m d),
      u.revealed = false ∧
      u.displayed = (if m then maskText u.original else u.original)
  | .text s => by
    intro h u hu
    simp [setDisplayDom, unitsDom] at hu
  | .elem e ch => by
    intro h u hu
    by_cases hue : isUnitElem e = true
    · rcases ho : e.dataOriginal with _ | o
      · simp only [setDisplayDom, if_pos hue, ho] at hu
        simp [unitsDom, hue, ho] at hu
      · cases hrev : e.revealed
        · have hstep : setDisplayDom m (.elem e ch) =
              .elem e (.cons (.text (if m then maskText o else o)) .nil) := by
            simp [setDisplayDom, hue, ho, hrev]
          rw [hstep] at hu
          have hunits : unitsDom
              (Dom.elem e (.cons (.text (if m then maskText o else o)) .nil)) =
              [⟨o, (if m then maskText o else o), false⟩] := by
            simp [unitsDom, hue, ho, hrev, textContentList, textContentDom]
          rw [hunits] at hu
          simp at hu
          subst hu
          exact ⟨rfl, rfl⟩
        · have hmem : (⟨o, textContentList ch, true⟩ : UnitView) ∈
              unitsDom (.elem e ch) := by
            simp [unitsDom, hue, ho, hrev]
          have hcontra := h _ hmem
          simp at hcontra
    · simp only [setDisplayDom, if_neg hue] at hu
      simp only [unitsDom, if_neg hue] at hu h
      exact units_setDisplay_list m ch h u hu
theorem units_setDisplay_list (m : Bool) : ∀ ds : DomList,
    (∀ u ∈ unitsList ds, u.revealed = false) →
    ∀ u ∈ unitsList (setDisplayList m ds),
      u.revealed = false ∧
      u.displayed = (if m then maskText u.original else u.original)
  | .nil => by
    intro _ u hu
    simp [setDisplayList, unitsList] at hu
  | .cons d ds => by
    intro h u hu
    simp only [setDisplayList, unitsList, List.mem_append] at hu
    simp only [unitsList, List.mem_append] at h
    rcases hu with hu | hu
    · exact units_setDisplay_dom m d (fun v hv => h v (Or.inl hv)) u hu
    · exact units_setDisplay_list m ds (fun v hv => h v (Or.inr hv)) u hu
end

theorem units_applyState (p : List Char) (st : Storage) (d : Dom)
    (helig : routeEligible p = true)
    (h : ∀ u ∈ unitsDom d, u.revealed = false) :
    ∀ u ∈ unitsDom (applyState p st d),
      u.revealed = false ∧
      u.displayed = (if getPref st then maskText u.original else u.original) := by
  simp only [applyState, if_pos helig]
  exact units_setDisplay_dom (getPref st) _ (units_scan_dom (getPref st) d h)

/-- C1: round trip of the global toggle — on an eligible route, with no
unit in hover/focus reveal, after the preference is set OFF and
`applyState` runs every unit's displayed text equals its `originalText`
byte-for-byte; after the preference is set back ON and `applyState` runs
again, every unit's displayed text equals its `maskedText`. -/
theorem C1_round_trip (p : List Char) (st : Storage) (d : Dom)
    (helig : routeEligible p = true)
    (hrev : ∀ u ∈ unitsDom d, u.revealed = false) :
    (∀ u ∈ unitsDom (applyState p (setPref false st) d),
      u.displayed = u.original) ∧
    (∀ u ∈ unitsDom (applyState p (setPref true (setPref false st))
        (applyState p (setPref false st) d)),
      u.displayed = maskText u.original) := by
  have h1 := units_applyState p (setPref false st) d helig hrev
  constructor
  · intro u hu
    have hd := (h1 u hu).2
    simpa [getPref_setPref] using hd
  · have hrev1 : ∀ u ∈ unitsDom (applyState p (setPref false st) d),
        u.revealed = false := fun u hu => (h1 u hu).1
    have h2 := units_applyState p (setPref true (setPref false st)) _ helig hrev1
    intro u hu
    have hd := (h2 u hu).2
    simpa [getPref_setPref] using hd

/-- Witness for C1 at the concrete fixture on `/dashboard`. -/
theorem C1_round_trip_witness :
    (∀ u ∈ unitsDom (applyState ("/dashboard".toList) (setPref false [])
        fixtureDoc), u.displayed = u.original) ∧
    (∀ u ∈ unitsDom (applyState ("/dashboard".toList)
        (setPref true (setPref false []))
        (applyState ("/dashboard".toList) (setPref false []) fixtureDoc)),
      u.displayed = maskText u.original) :=
  C1_round_trip ("/dashboard".toList) [] fixtureDoc (by decide) (by decide)

end MTM

